import Mathlib

/-!
Shallow embedding of the decision procedures of two LLVM middle-end passes:

* `LoopPredication.cpp` — parsing of induction-variable comparisons
  (`LoopPredication::parseLoopICmp`), the widening of a per-iteration range
  check into a loop-invariant check for incrementing loops
  (`LoopPredication::widenICmpRangeCheckIncrementingLoop`), and the
  decomposition of a guard condition into sub-conditions
  (`LoopPredication::collectChecks`).

* `LoopFuse.cpp` — the legality pipeline of the loop-fusion pass:
  trip-count comparison (`LoopFuser::identicalTripCounts`), adjacency
  (`LoopFuser::isAdjacent`), guard identity (`LoopFuser::haveIdenticalGuards`),
  block-emptiness checks, the SCEV-based dependence test
  (`LoopFuser::accessDiffIsPositive` / `dependencesAllowFusion`),
  control-flow equivalence (`LoopFuser::isControlFlowEquivalent`) and the
  dominance comparator (`FusionCandidateCompare`), together with the
  per-pair check sequence of `LoopFuser::fuseCandidates`.

Machine integers of bit width `w` are modelled as mathematical integers in
`[0, 2^w)` with explicit `% 2^w` wraparound; signed comparisons reinterpret
the representative through two's complement.  The scalar-evolution engine is
an external oracle in the source; symbolic expressions are modelled by a
small inductive type that keeps exactly the distinctions the code inspects
(not-computable, add recurrence of a given loop with an operand list, and
loop-invariant expressions), and oracle answers that the code merely
branches on (`isKnownPredicate`, dependence-analysis results, pointer
operands) are recorded as boolean fields of the inputs.
-/

namespace LoopVerif

/-- Integer comparison predicates (the integer subset of
`ICmpInst::Predicate`). -/
inductive Pred where
  | ult | ule | ugt | uge | slt | sle | sgt | sge | peq | pne
deriving DecidableEq

/-- The modulus `2^w` of machine integers of bit width `w`. -/
def msize (w : Nat) : Int := (2 : Int) ^ w

/-- `w`-bit wraparound addition on representatives in `[0, 2^w)`; this is the
value computed by `ScalarEvolution::getAddExpr` on constants of width `w`. -/
def addw (w : Nat) (a b : Int) : Int := (a + b) % msize w

/-- `w`-bit wraparound subtraction (`ScalarEvolution::getMinusSCEV` on
constants of width `w`). -/
def subw (w : Nat) (a b : Int) : Int := (a - b) % msize w

/-- Reinterpret a `w`-bit representative in `[0, 2^w)` through two's
complement, yielding its signed value in `[-2^(w-1), 2^(w-1))`. -/
def toSigned (w : Nat) (a : Int) : Int := if 2 * a < msize w then a else a - msize w

/-- Truth value of `a <pred> b` on `w`-bit machine integers, i.e. the value
of the `icmp` instruction `IRBuilder::CreateICmp(pred, a, b)` emits once both
operands are substituted by concrete `w`-bit values. -/
def evalPred (w : Nat) (p : Pred) (a b : Int) : Bool :=
  match p with
  | .ult => decide (a < b)
  | .ule => decide (a ≤ b)
  | .ugt => decide (b < a)
  | .uge => decide (b ≤ a)
  | .slt => decide (toSigned w a < toSigned w b)
  | .sle => decide (toSigned w a ≤ toSigned w b)
  | .sgt => decide (toSigned w b < toSigned w a)
  | .sge => decide (toSigned w b ≤ toSigned w a)
  | .peq => decide (a = b)
  | .pne => decide (a ≠ b)

/-- `ICmpInst::getSwappedPredicate`: the predicate obtained by exchanging the
two operands (`a <pred> b` iff `b <swapped pred> a`). -/
def swappedPred : Pred → Pred
  | .ult => .ugt
  | .ule => .uge
  | .ugt => .ult
  | .uge => .ule
  | .slt => .sgt
  | .sle => .sge
  | .sgt => .slt
  | .sge => .sle
  | .peq => .peq
  | .pne => .pne

/-- `ICmpInst::getFlippedStrictnessPredicate`: toggles strictness while
keeping direction and signedness (`SLT ↔ SLE`, `ULT ↔ ULE`, `SGT ↔ SGE`,
`UGT ↔ UGE`).  The widening engine only applies it to the four
less-than-style predicates admitted by `parseLoopLatchICmp` for step `+1`;
equality predicates are mapped to themselves here (the source asserts they
never reach this call). -/
def flippedStrictness : Pred → Pred
  | .ult => .ule
  | .ule => .ult
  | .ugt => .uge
  | .uge => .ugt
  | .slt => .sle
  | .sle => .slt
  | .sgt => .sge
  | .sge => .sgt
  | .peq => .peq
  | .pne => .pne

/-- A parsed induction-variable comparison (`struct LoopICmp`) with its
symbolic operands already substituted by concrete `w`-bit values: `pred` is
the comparison predicate, `ivStart` the start value of the add recurrence on
the left, and `limit` the loop-invariant right operand. -/
structure LoopICmpV where
  pred : Pred
  ivStart : Int
  limit : Int
deriving DecidableEq

/-- Value of the SCEV `RHS` built by
`widenICmpRangeCheckIncrementingLoop`:
`SE->getAddExpr(SE->getMinusSCEV(GuardLimit, GuardStart),
                SE->getMinusSCEV(LatchStart, SE->getOne(Ty)))`. -/
def widenIncRHS (w : Nat) (latch rc : LoopICmpV) : Int :=
  addw w (subw w rc.limit rc.ivStart) (subw w latch.ivStart 1)

/-- Truth value of the loop-invariant condition emitted by
`LoopPredication::widenICmpRangeCheckIncrementingLoop` once all four parsed
operands are substituted by concrete `w`-bit values: the conjunction of
`FirstIterationCheck = expandCheck(RangeCheck.Pred, GuardStart, GuardLimit)`
and `LimitCheck = expandCheck(getFlippedStrictnessPredicate(LatchCheck.Pred),
LatchLimit, RHS)`.  `expandCheck` either materialises the comparison
instruction itself or folds it to the constant the SCEV oracle proves, so
under substitution its value is `evalPred` of its operands. -/
def widenIncEmitted (w : Nat) (latch rc : LoopICmpV) : Bool :=
  evalPred w rc.pred rc.ivStart rc.limit &&
  evalPred w (flippedStrictness latch.pred) latch.limit (widenIncRHS w latch rc)

/-- The latch comparison of the C1 scenario: the latch performs `i++` and
then tests `i s< M`, so the comparison parsed by `parseLoopICmp` is over the
post-increment add recurrence, whose start value is `0 + 1`. -/
def c1LatchCheck (w : Nat) (M : Int) : LoopICmpV :=
  { pred := .slt, ivStart := addw w 0 1, limit := M }

/-- The guard comparison of the C1 scenario: `i u< N` over the induction
variable `i` starting at `0`. -/
def c1RangeCheck (N : Int) : LoopICmpV :=
  { pred := .ult, ivStart := 0, limit := N }

/-- The formula the claim C1 asserts the emitted check to be equivalent to:
`(0 u< N) && (M s<= N - 1)` in `w`-bit arithmetic. -/
def c1ClaimedFormula (w : Nat) (N M : Int) : Bool :=
  evalPred w .ult 0 N && evalPred w .sle M (subw w N 1)

/-- The predicate mapping asserted by claim C2: `<` becomes `>=` and `<=`
becomes `>`, preserving signedness. -/
def dirFlip : Pred → Pred
  | .ult => .uge
  | .ule => .ugt
  | .slt => .sge
  | .sle => .sgt
  | p => p

/-- The right-hand side of the limit comparison as spelled by the spec and
the claims: `guardLimit - guardStart + latchStart - 1`, read left to right
in `w`-bit arithmetic. -/
def specIncRHS (w : Nat) (latch rc : LoopICmpV) : Int :=
  subw w (addw w (subw w rc.limit rc.ivStart) latch.ivStart) 1

/-- The replacement condition claim C2 asserts is emitted:
`guardCheck(start) && (latchLimit <dirFlip latchPred> specIncRHS)`. -/
def c2ClaimedEmitted (w : Nat) (latch rc : LoopICmpV) : Bool :=
  evalPred w rc.pred rc.ivStart rc.limit &&
  evalPred w (dirFlip latch.pred) latch.limit (specIncRHS w latch rc)

/-- The amended predicate mapping: strictness is toggled while direction and
signedness are preserved (`<` becomes `<=`, `<=` becomes `<`). -/
def strictFlip : Pred → Pred
  | .ult => .ule
  | .ule => .ult
  | .slt => .sle
  | .sle => .slt
  | p => p

/-- The replacement condition of the amended claim C2:
`guardCheck(start) && (latchLimit <strictFlip latchPred> specIncRHS)`. -/
def c2AmendedEmitted (w : Nat) (latch rc : LoopICmpV) : Bool :=
  evalPred w rc.pred rc.ivStart rc.limit &&
  evalPred w (strictFlip latch.pred) latch.limit (specIncRHS w latch rc)

/-- Minimal model of the symbolic expressions (`SCEV`) that
`parseLoopICmp` inspects.  It keeps exactly the distinctions the code
branches on: `couldNotCompute` is `SCEVCouldNotCompute`; `addRec l ops` is a
`SCEVAddRecExpr` for the loop with number `l` with operand list `ops`
(`\x7bops[0],+,ops[1],+,...\x7d`, affine iff `ops` has exactly two entries);
`inv id` is any other expression, which is loop-invariant.  SCEVs are
uniqued by `ScalarEvolution`, so pointer equality of `const SCEV *` in the
source is structural equality here. -/
inductive ScevE where
  | couldNotCompute
  | addRec (loopId : Nat) (ops : List Int)
  | inv (id : Nat)
deriving DecidableEq

/-- `ScalarEvolution::isLoopInvariant` for the current loop `l`: an add
recurrence of `l` varies in `l`, an add recurrence of a different loop at
the same nest level and every `inv` expression are invariant.  The code
never queries invariance of `SCEVCouldNotCompute` (it bails out first). -/
def isLoopInvariantScev (s : ScevE) (l : Nat) : Bool :=
  match s with
  | .inv _ => true
  | .addRec l2 _ => decide (l2 ≠ l)
  | .couldNotCompute => false

/-- A parsed `LoopICmp` at the symbolic level: predicate, the add-recurrence
left side, and the right side. -/
structure LoopICmpS where
  pred : Pred
  iv : ScevE
  limit : ScevE
deriving DecidableEq

/-- `LoopPredication::parseLoopICmp` for loop `l`: the comparison's operands
are given by their symbolic forms `lhs0`/`rhs0` (with `couldNotCompute`
standing for `SCEVCouldNotCompute`).  Bails out if either side cannot be
computed; swaps the sides and the predicate when the left side is
loop-invariant; then requires the (possibly swapped) left side to be an add
recurrence belonging to `l`. -/
def parseLoopICmpM (l : Nat) (pred0 : Pred) (lhs0 rhs0 : ScevE) :
    Option LoopICmpS :=
  if lhs0 = ScevE.couldNotCompute then none
  else if rhs0 = ScevE.couldNotCompute then none
  else
    let doSwap := isLoopInvariantScev lhs0 l
    let lhs := if doSwap then rhs0 else lhs0
    let rhs := if doSwap then lhs0 else rhs0
    let pr := if doSwap then swappedPred pred0 else pred0
    match lhs with
    | .addRec l2 ops => if l2 = l then some ⟨pr, .addRec l2 ops, rhs⟩ else none
    | _ => none

/-- Whether a symbolic expression is an add recurrence of loop `l`
(`dyn_cast<SCEVAddRecExpr>` succeeding with `AR->getLoop() == L`),
regardless of affinity. -/
def isAddRecOfLoop (l : Nat) : ScevE → Bool
  | .addRec l2 _ => decide (l2 = l)
  | _ => false

/-- Whether a symbolic expression is an affine add recurrence of loop `l`
(`start + step * iteration`), the notion the claim wording uses. -/
def isAffineAddRecOf (l : Nat) : ScevE → Bool
  | .addRec l2 ops => decide (l2 = l) && decide (ops.length = 2)
  | _ => false

/-- The condition values `collectChecks` traverses: `cand l r` is an `and`
instruction with operands `l` and `r`; `wc id` is a call to the
`experimental_widenable_condition` intrinsic; `icmp id` is an integer
comparison; `other id` is any other value.  Equality models pointer equality
of `Value *` (each distinct instruction gets a distinct id). -/
inductive CVal where
  | cand (l r : CVal)
  | wc (id : Nat)
  | icmp (id : Nat)
  | other (id : Nat)
deriving DecidableEq

/-- Number of nodes of a condition tree (used as the worklist measure). -/
def cvalSize : CVal → Nat
  | .cand l r => cvalSize l + cvalSize r + 1
  | _ => 1

/-- Total size of a worklist. -/
def wlSize (wl : List CVal) : Nat := (wl.map cvalSize).sum

/-- The worklist loop of `LoopPredication::collectChecks`.  The worklist is
a stack (`SmallVector::pop_back_val`); popping an already visited value is
skipped; an `and` pushes both operands; a widenable-condition call is
remembered in `wideable` (any one of them, the code does not care which); an
`icmp` is replaced by its widened form when `widenICmpRangeCheck` succeeds
(the oracle `f`, whose result is a fresh value `other k` — the widened check
is built from `CreateICmp`/`CreateAnd`/constants and is never itself a
widenable-condition call); everything else is saved as is.  Returns the
check list, the remembered widenable condition, and `NumWidened`. -/
def collectChecksAux (f : Nat → Option Nat) (wl vis checks : List CVal)
    (wideable : Option CVal) (nw : Nat) : List CVal × Option CVal × Nat :=
  match wl with
  | [] => (checks, wideable, nw)
  | c :: rest =>
    if c ∈ vis then collectChecksAux f rest vis checks wideable nw
    else
      match c with
      | .cand l r =>
        collectChecksAux f (r :: l :: rest) (CVal.cand l r :: vis) checks
          wideable nw
      | .wc i =>
        collectChecksAux f rest (CVal.wc i :: vis) checks (some (CVal.wc i)) nw
      | .icmp i =>
        match f i with
        | some k =>
          collectChecksAux f rest (CVal.icmp i :: vis)
            (checks ++ [CVal.other k]) wideable (nw + 1)
        | none =>
          collectChecksAux f rest (CVal.icmp i :: vis)
            (checks ++ [CVal.icmp i]) wideable nw
      | .other i =>
        collectChecksAux f rest (CVal.other i :: vis)
          (checks ++ [CVal.other i]) wideable nw
termination_by wlSize wl
decreasing_by
  all_goals simp only [wlSize, List.map_cons, List.sum_cons, cvalSize]
  · cases c <;> simp [cvalSize]
  all_goals omega

/-- `LoopPredication::collectChecks`: runs the worklist loop on the guard
condition and, if a widenable-condition call was seen, appends the retained
one after all other sub-conditions. -/
def collectChecksM (f : Nat → Option Nat) (cond : CVal) : List CVal × Nat :=
  match collectChecksAux f [cond] [] [] none 0 with
  | (checks, some w, nw) => (checks ++ [w], nw)
  | (checks, none, nw) => (checks, nw)

/-- Whether a value is a widenable-condition call. -/
def isWC : CVal → Bool
  | .wc _ => true
  | _ => false

/-- Number of widenable-condition calls in a list. -/
def countWC (l : List CVal) : Nat := (l.filter isWC).length

/-- All nodes of a condition tree (the value itself and, through `and`
nodes, all operands transitively). -/
def nodes : CVal → List CVal
  | .cand l r => CVal.cand l r :: (nodes l ++ nodes r)
  | c => [c]

/-- Whether the decomposition of a condition into a conjunction contains a
widenable-condition call. -/
def hasWC (c : CVal) : Bool := (nodes c).any isWC

/-- Whether `y` is reachable from `c` by descending through `and` operands
while meeting no node recorded in `vis`.  This captures which sub-conditions
the worklist loop can still reach given the visited set. -/
def fresh (vis : List CVal) : CVal → CVal → Bool
  | .cand l r, y =>
    if CVal.cand l r ∈ vis then false
    else decide (CVal.cand l r = y) || fresh vis l y || fresh vis r y
  | c, y => if c ∈ vis then false else decide (c = y)

/-- Concrete guard condition used as the C10 witness input: a conjunction
holding two distinct widenable-condition calls and one comparison. -/
def c10cond : CVal := CVal.cand (CVal.cand (CVal.wc 1) (CVal.icmp 5)) (CVal.wc 2)

/-- Widening oracle for the C10 witness: no comparison is widenable. -/
def c10f : Nat → Option Nat := fun _ => none

/-- Basic blocks are identified by numerals (pointer identity of
`BasicBlock *`). -/
abbrev BB := Nat

/-- The guard branch of a fusion candidate (`BranchInst *GuardBranch`):
the block containing the conditional branch, its two successors, and, when
the branch condition is an `Instruction`, the structural identity of that
instruction (`Instruction::isIdenticalTo` holds iff the ids are equal) and
the block containing it.  `cond = none` models a non-instruction condition
(e.g. a constant). -/
structure GuardM where
  parent : BB
  succ0 : BB
  succ1 : BB
  cond : Option (Nat × BB)
deriving DecidableEq

/-- A fusion candidate (`struct FusionCandidate`): the cached structural
anchors of the loop, its optional guard branch, the instructions that write
and read memory (by id), and the loop's symbolic backedge-taken count
(`SE.getBackedgeTakenCount(L)`, `couldNotCompute` when SCEV cannot compute
it). -/
structure FusionCandidateM where
  preheader : BB
  header : BB
  exitingBlock : BB
  exitBlock : BB
  latch : BB
  guardBranch : Option GuardM
  memWrites : List Nat
  memReads : List Nat
  tripCount : ScevE
deriving DecidableEq

/-- `FusionCandidate::getEntryBlock`: the guard branch's block for a guarded
loop, the preheader otherwise. -/
def FusionCandidateM.entryBlock (fc : FusionCandidateM) : BB :=
  match fc.guardBranch with
  | some g => g.parent
  | none => fc.preheader

/-- `FusionCandidate::getNonLoopBlock` for a guard branch: the successor of
the guard that is not the preheader. -/
def GuardM.nonLoopBlock (g : GuardM) (preheader : BB) : BB :=
  if g.succ0 = preheader then g.succ1 else g.succ0

/-- `LoopFuser::isAdjacent`: for a guarded first candidate, its guard's
non-loop successor must be the second candidate's entry block; otherwise its
exit block must be the second candidate's entry block. -/
def isAdjacentM (fc0 fc1 : FusionCandidateM) : Bool :=
  match fc0.guardBranch with
  | some g => decide (g.nonLoopBlock fc0.preheader = fc1.entryBlock)
  | none => decide (fc0.exitBlock = fc1.entryBlock)

/-- `LoopFuser::haveIdenticalGuards` (both candidates guarded): if both
guard conditions are instructions they must be structurally identical; then
the successors must have the same flow into/around the loop. -/
def haveIdenticalGuardsM (g0 g1 : GuardM) (ph0 ph1 : BB) : Bool :=
  if (match g0.cond, g1.cond with
      | some c0, some c1 => decide (c0.1 ≠ c1.1)
      | _, _ => false) then false
  else if g0.succ0 = ph0 then decide (g1.succ0 = ph1)
  else decide (g1.succ1 = ph1)

/-- `LoopFuser::isEmptyPreheader`: the preheader holds only its terminator.
`bs` gives the instruction count of each block (`BasicBlock::size`). -/
def isEmptyPreheaderM (bs : BB → Nat) (fc : FusionCandidateM) : Bool :=
  decide (bs fc.preheader = 1)

/-- `LoopFuser::isEmptyExitBlock`: the exit block holds only its
terminator. -/
def isEmptyExitBlockM (bs : BB → Nat) (fc : FusionCandidateM) : Bool :=
  decide (bs fc.exitBlock = 1)

/-- `LoopFuser::isEmptyGuardBlock`: the guard block holds only the compare
and the branch: if the condition is an instruction located in the guard
block the block size must be 2, if it is an instruction located elsewhere
the size must be 1, and a non-instruction condition fails the check. -/
def isEmptyGuardBlockM (bs : BB → Nat) (g : GuardM) : Bool :=
  match g.cond with
  | some c =>
    if c.2 = g.parent then decide (bs g.parent = 2)
    else decide (bs g.parent = 1)
  | none => false

/-- The oracle answers consulted by `accessDiffIsPositive` and the
dependence-analysis fallback for one pair of memory instructions `(I0, I1)`
with `I0` in the first loop and `I1` in the second: whether each has a
pointer operand (`getLoadStorePointerOperand`), whether the
`AddRecLoopReplacer` rewrite of `I0`'s address into the second loop's terms
succeeded (`wasValidSCEV`), whether the rewritten second address holds an
add recurrence with no dominance relation to the first loop's header, the
answers of `SE.isKnownPredicate` for `SGT` and `SGE` on the rewritten
addresses, and whether `DI.depends` found no dependence. -/
structure AccessPair where
  hasPtr0 : Bool
  hasPtr1 : Bool
  rewriteValid : Bool
  nonLinearDom : Bool
  knownSGT : Bool
  knownSGE : Bool
  daNoDep : Bool
deriving DecidableEq

/-- The `-loop-fusion-dependence-analysis` choice. -/
inductive DepChoice where
  | scev | da | all
deriving DecidableEq

/-- `LoopFuser::accessDiffIsPositive`: false without both pointer operands,
false if the induction-variable rewrite failed, false if the second address
holds a non-linearly dominated recurrence; otherwise asks the SCEV oracle
whether the first address is provably `SGT` (when equality is invalid) or
`SGE` (otherwise) the second. -/
def accessDiffIsPositiveM (p : AccessPair) (equalIsInvalid : Bool) : Bool :=
  if !p.hasPtr0 || !p.hasPtr1 then false
  else if !p.rewriteValid then false
  else if p.nonLinearDom then false
  else if equalIsInvalid then p.knownSGT
  else p.knownSGE

/-- `LoopFuser::dependencesAllowFusion` on one instruction pair: the SCEV
method is `accessDiffIsPositive` with `AnyDep` as `EqualIsInvalid`; the
dependence-analysis method allows the pair only when `DI.depends` finds no
dependence; `all` allows the pair when either method does. -/
def dependencesAllowFusionPairM (p : AccessPair) (anyDep : Bool)
    (dc : DepChoice) : Bool :=
  match dc with
  | .scev => accessDiffIsPositiveM p anyDep
  | .da => p.daNoDep
  | .all => accessDiffIsPositiveM p anyDep || p.daNoDep

/-- `LoopFuser::dependencesAllowFusion` on a candidate pair: every
write/write and write/read pair across the two loops is tested with
`AnyDep = false`, and additionally no instruction in the second loop may use
a value defined in the first loop (`cross`). `pinfo` gives the oracle
answers for each instruction pair. -/
def dependencesAllowFusionM (pinfo : Nat → Nat → AccessPair) (dc : DepChoice)
    (cross : Bool) (fc0 fc1 : FusionCandidateM) : Bool :=
  (fc0.memWrites.all fun w0 =>
    fc1.memWrites.all
      (fun w1 => dependencesAllowFusionPairM (pinfo w0 w1) false dc) &&
    fc1.memReads.all
      (fun r1 => dependencesAllowFusionPairM (pinfo w0 r1) false dc)) &&
  (fc1.memWrites.all fun w1 =>
    fc0.memWrites.all
      (fun w0 => dependencesAllowFusionPairM (pinfo w0 w1) false dc) &&
    fc0.memReads.all
      (fun r0 => dependencesAllowFusionPairM (pinfo r0 w1) false dc)) &&
  !cross

/-- The flat list of instruction pairs `(I0 in first loop, I1 in second
loop)` tested by `dependencesAllowFusion`: writes against writes (twice, as
in the source), writes against reads of the second loop, and reads of the
first loop against writes of the second. -/
def depCheckedPairs (fc0 fc1 : FusionCandidateM) : List (Nat × Nat) :=
  (fc0.memWrites.flatMap fun w0 => fc1.memWrites.map fun w1 => (w0, w1)) ++
  (fc0.memWrites.flatMap fun w0 => fc1.memReads.map fun r1 => (w0, r1)) ++
  (fc1.memWrites.flatMap fun w1 => fc0.memWrites.map fun w0 => (w0, w1)) ++
  (fc1.memWrites.flatMap fun w1 => fc0.memReads.map fun r0 => (r0, w1))

/-- The named statistics and remark kinds of the fusion pipeline
(`STATISTIC(...)` and the names passed to `reportLoopFusion`). -/
inductive StatName where
  | fuseCounter
  | uncomputableTripCount
  | nonEqualTripCount
  | nonAdjacent
  | nonIdenticalGuards
  | nonEmptyPreheader
  | nonEmptyExitBlock
  | nonEmptyGuardBlock
  | invalidDependencies
  | fusionNotBeneficial
deriving DecidableEq

/-- Statistic counters plus the stream of remarks emitted through the
optimization-remark emitter (each remark is recorded by its statistic's
name, as `reportLoopFusion` prints `Stat.getName()`). -/
structure Stats where
  counts : StatName → Nat
  remarks : List StatName

/-- Increment one named statistic (`++Stat`). -/
def Stats.bump (s : Stats) (n : StatName) : Stats :=
  ⟨fun m => if m = n then s.counts m + 1 else s.counts m, s.remarks⟩

/-- `LoopFuser::reportLoopFusion`: increments the named statistic and emits
one remark for the pair. -/
def reportFusionS (s : Stats) (n : StatName) : Stats :=
  ⟨(s.bump n).counts, s.remarks ++ [n]⟩

/-- The zero statistics state. -/
def stats0 : Stats := ⟨fun _ => 0, []⟩

/-- Boolean value of `LoopFuser::identicalTripCounts`: both backedge-taken
counts must be computable and be the very same symbolic expression (SCEVs
are uniqued, so pointer equality in the source is structural equality
here). -/
def identicalTripCountsB (fc0 fc1 : FusionCandidateM) : Bool :=
  if fc0.tripCount = ScevE.couldNotCompute then false
  else if fc1.tripCount = ScevE.couldNotCompute then false
  else decide (fc0.tripCount = fc1.tripCount)

/-- `LoopFuser::identicalTripCounts` with its statistic side effect: an
uncomputable count bumps `UncomputableTripCount` and fails. -/
def identicalTripCountsS (s : Stats) (fc0 fc1 : FusionCandidateM) :
    Bool × Stats :=
  if fc0.tripCount = ScevE.couldNotCompute then
    (false, s.bump .uncomputableTripCount)
  else if fc1.tripCount = ScevE.couldNotCompute then
    (false, s.bump .uncomputableTripCount)
  else (decide (fc0.tripCount = fc1.tripCount), s)

/-- `LoopFuser::dependencesAllowFusion` with its statistic side effect: the
first failing pair (or the cross-loop def/use scan) bumps
`InvalidDependencies` once and the function returns false. -/
def dependencesAllowFusionS (pinfo : Nat → Nat → AccessPair) (dc : DepChoice)
    (cross : Bool) (fc0 fc1 : FusionCandidateM) (s : Stats) : Bool × Stats :=
  if dependencesAllowFusionM pinfo dc cross fc0 fc1 then (true, s)
  else (false, s.bump .invalidDependencies)

/-- `LoopFuser::isBeneficialFusion`: currently always true. -/
def isBeneficialFusionM (_fc0 _fc1 : FusionCandidateM) : Bool := true

/-- The guard-identity condition of the pipeline: only applies when both
candidates are guarded. -/
def guardIdentOKM (fc0 fc1 : FusionCandidateM) : Bool :=
  match fc0.guardBranch, fc1.guardBranch with
  | some g0, some g1 => haveIdenticalGuardsM g0 g1 fc0.preheader fc1.preheader
  | _, _ => true

/-- The exit-block emptiness condition of the pipeline: only applies when
the first candidate is guarded. -/
def exitBlockOKM (bs : BB → Nat) (fc0 : FusionCandidateM) : Bool :=
  match fc0.guardBranch with
  | some _ => isEmptyExitBlockM bs fc0
  | none => true

/-- The guard-block emptiness condition of the pipeline: only applies when
the second candidate is guarded. -/
def guardBlockOKM (bs : BB → Nat) (fc1 : FusionCandidateM) : Bool :=
  match fc1.guardBranch with
  | some g => isEmptyGuardBlockM bs g
  | none => true

/-- One iteration of the inner pair loop of `LoopFuser::fuseCandidates`:
the checks run in the source's order, the first failing check reports its
named statistic through `reportLoopFusion` and ends the pair (`continue`),
and a pair passing every check reports `FuseCounter` and is fused.  Returns
the name of the failed check (`none` when the pair is fused) and the updated
statistics. -/
def processPair (bs : BB → Nat) (pinfo : Nat → Nat → AccessPair)
    (dc : DepChoice) (cross : Bool) (fc0 fc1 : FusionCandidateM)
    (s : Stats) : Option StatName × Stats :=
  let tc := identicalTripCountsS s fc0 fc1
  if !tc.1 then (some .nonEqualTripCount, reportFusionS tc.2 .nonEqualTripCount)
  else if !isAdjacentM fc0 fc1 then
    (some .nonAdjacent, reportFusionS tc.2 .nonAdjacent)
  else if !guardIdentOKM fc0 fc1 then
    (some .nonIdenticalGuards, reportFusionS tc.2 .nonIdenticalGuards)
  else if !isEmptyPreheaderM bs fc1 then
    (some .nonEmptyPreheader, reportFusionS tc.2 .nonEmptyPreheader)
  else if !exitBlockOKM bs fc0 then
    (some .nonEmptyExitBlock, reportFusionS tc.2 .nonEmptyExitBlock)
  else if !guardBlockOKM bs fc1 then
    (some .nonEmptyGuardBlock, reportFusionS tc.2 .nonEmptyGuardBlock)
  else
    let dep := dependencesAllowFusionS pinfo dc cross fc0 fc1 tc.2
    if !dep.1 then
      (some .invalidDependencies, reportFusionS dep.2 .invalidDependencies)
    else if !isBeneficialFusionM fc0 fc1 then
      (some .fusionNotBeneficial, reportFusionS dep.2 .fusionNotBeneficial)
    else (none, reportFusionS dep.2 .fuseCounter)

/-- The fixed check order of the pipeline, paired with the statistic each
check reports on failure. -/
def c7CheckOrder (bs : BB → Nat) (pinfo : Nat → Nat → AccessPair)
    (dc : DepChoice) (cross : Bool) (fc0 fc1 : FusionCandidateM) :
    List (Bool × StatName) :=
  [(identicalTripCountsB fc0 fc1, .nonEqualTripCount),
   (isAdjacentM fc0 fc1, .nonAdjacent),
   (guardIdentOKM fc0 fc1, .nonIdenticalGuards),
   (isEmptyPreheaderM bs fc1, .nonEmptyPreheader),
   (exitBlockOKM bs fc0, .nonEmptyExitBlock),
   (guardBlockOKM bs fc1, .nonEmptyGuardBlock),
   (dependencesAllowFusionM pinfo dc cross fc0 fc1, .invalidDependencies),
   (isBeneficialFusionM fc0 fc1, .fusionNotBeneficial)]

/-- The statistic of the first failing check of a check list, if any. -/
def firstFailure (cs : List (Bool × StatName)) : Option StatName :=
  (cs.find? fun c => !c.1).map (·.2)

/-- The remark name a pair produces: its first failing check, or
`FuseCounter` when the pair is fused. -/
def pairOutcome (bs : BB → Nat) (pinfo : Nat → Nat → AccessPair)
    (dc : DepChoice) (cross : Bool) (fc0 fc1 : FusionCandidateM) : StatName :=
  (firstFailure (c7CheckOrder bs pinfo dc cross fc0 fc1)).getD .fuseCounter

/-- The pair loop of `fuseCandidates` over a list of candidate pairs: each
pair is processed in turn; a failing pair never aborts the traversal. -/
def processPairList (bs : BB → Nat) (pinfo : Nat → Nat → AccessPair)
    (dc : DepChoice) (cross : Bool) :
    List (FusionCandidateM × FusionCandidateM) → Stats → Stats
  | [], s => s
  | p :: ps, s =>
    processPairList bs pinfo dc cross ps (processPair bs pinfo dc cross p.1 p.2 s).2

/-- `LoopFuser::isControlFlowEquivalent`: if the first entry block dominates
the second, the second must post-dominate the first; if the second dominates
the first, the first must post-dominate the second; otherwise the candidates
are not equivalent.  `dom` and `pdom` are the dominator and post-dominator
oracles. -/
def isControlFlowEquivalentM (dom pdom : BB → BB → Bool)
    (fc0 fc1 : FusionCandidateM) : Bool :=
  if dom fc0.entryBlock fc1.entryBlock then pdom fc1.entryBlock fc0.entryBlock
  else if dom fc1.entryBlock fc0.entryBlock then
    pdom fc0.entryBlock fc1.entryBlock
  else false

/-- `FusionCandidateCompare::operator()`: the query whether the right
entry block dominates the left one runs first, so equal entry blocks yield
false; `none` models the `llvm_unreachable` taken when the two candidates
are incomparable. -/
def fusionCandidateCompareM (dom : BB → BB → Bool)
    (lhs rhs : FusionCandidateM) : Option Bool :=
  if dom rhs.entryBlock lhs.entryBlock then some false
  else if dom lhs.entryBlock rhs.entryBlock then some true
  else none

/-- Oracle answers for the C3 counterexample: both instructions have pointer
operands, the rewrite succeeds, and the two addresses are provably equal
(`SGE` holds, `SGT` does not); dependence analysis sees the dependence. -/
def c3pinfo : Nat → Nat → AccessPair :=
  fun _ _ => ⟨true, true, true, false, false, true, false⟩

/-- First loop of the C3 counterexample: one memory write (id 0). -/
def c3fc0 : FusionCandidateM :=
  ⟨0, 1, 2, 3, 2, none, [0], [], ScevE.inv 0⟩

/-- Second loop of the C3 counterexample: one memory write (id 1). -/
def c3fc1 : FusionCandidateM :=
  ⟨3, 4, 5, 6, 5, none, [1], [], ScevE.inv 0⟩

/-- First candidate of the C4 counterexample: unguarded, exit block 10. -/
def c4fc0 : FusionCandidateM :=
  ⟨0, 1, 2, 10, 2, none, [], [], ScevE.inv 0⟩

/-- Second candidate of the C4 counterexample: guarded with guard block 20
and preheader 10 (equal to the first candidate's exit block). -/
def c4fc1 : FusionCandidateM :=
  ⟨10, 11, 12, 13, 12, some ⟨20, 10, 30, some (7, 20)⟩, [], [], ScevE.inv 0⟩

/-- An unguarded candidate used by the C4 witness. -/
def c4fc2 : FusionCandidateM :=
  ⟨10, 11, 12, 13, 12, none, [], [], ScevE.inv 0⟩

/-- Candidates with unequal computable trip counts for the C5 witness. -/
def c5fc0 : FusionCandidateM :=
  ⟨0, 1, 2, 3, 2, none, [], [], ScevE.inv 1⟩

/-- Second candidate of the C5 witness. -/
def c5fc1 : FusionCandidateM :=
  ⟨3, 4, 5, 6, 5, none, [], [], ScevE.inv 2⟩

/-- Block sizes used by the C7 witness (every block holds one
instruction). -/
def c7bs : BB → Nat := fun _ => 1

/-- A dominance oracle given by equality of block ids, used by the C8 and
C9 witnesses; it is reflexive and antisymmetric. -/
def domEqB : BB → BB → Bool := fun a b => decide (a = b)

/-- A post-dominance oracle that always answers yes, used by the C8
witness. -/
def pdomAllB : BB → BB → Bool := fun _ _ => true

theorem emod_add_right (x y m : Int) : (x + y % m) % m = (x + y) % m := by
  rw [Int.add_emod x (y % m), Int.emod_emod_of_dvd _ dvd_rfl, ← Int.add_emod]

theorem emod_sub_left (x y m : Int) : (x % m - y) % m = (x - y) % m := by
  rw [Int.sub_emod (x % m), Int.emod_emod_of_dvd _ dvd_rfl, ← Int.sub_emod]

theorem addw_subw_one (w : Nat) (x c : Int) :
    addw w x (subw w c 1) = subw w (addw w x c) 1 := by
  unfold addw subw
  rw [emod_add_right, emod_sub_left]
  congr 1
  ring

/-- C1 (counterexample).  The claim asserts that for guard `i u< N` (i
starting at 0) and latch `i++ ; i s< M` the emitted loop-invariant check is
equivalent to `(0 u< N) && (M s<= N - 1)`.  At width 8 with `N = M = 1`
(fully decidable by substitution) the check actually emitted by
`widenICmpRangeCheckIncrementingLoop` evaluates to `true`, while the claimed
formula evaluates to `false`: the latch comparison is over the
post-increment recurrence, whose start is `1`, so the emitted limit check is
`M s<= N`, not `M s<= N - 1`. -/
theorem C1_counterexample :
    widenIncEmitted 8 (c1LatchCheck 8 1) (c1RangeCheck 1) = true ∧
    c1ClaimedFormula 8 1 1 = false := by
  decide

/-- C1 (amended).  For an incrementing loop with guard `i u< N` (i starting
at 0, N loop-invariant) and latch `i++ ; i s< M` (M loop-invariant), the
check emitted by the predication widening engine is equivalent to
`(0 u< N) && (M s<= N)` whenever the equivalence is decidable by
substituting the parsed start/limit values. -/
theorem C1_amended (w : Nat) (N M : Int) (hw : 0 < w) (hN0 : 0 ≤ N)
    (hN : N < msize w) :
    widenIncEmitted w (c1LatchCheck w M) (c1RangeCheck N) =
      (evalPred w .ult 0 N && evalPred w .sle M N) := by
  have h2 : (1 : Int) < msize w := by
    unfold msize
    calc (1 : Int) < 2 := by norm_num
    _ = 2 ^ 1 := by norm_num
    _ ≤ 2 ^ w := pow_le_pow_right₀ (by norm_num) hw
  have hm1 : addw w 0 1 = 1 := by
    unfold addw
    rw [zero_add]
    exact Int.emod_eq_of_lt (by norm_num) h2
  have hz : subw w 1 1 = 0 := by
    unfold subw
    norm_num
  have hsub : subw w N 0 = N := by
    unfold subw
    rw [sub_zero]
    exact Int.emod_eq_of_lt hN0 hN
  have hadd : addw w N 0 = N := by
    unfold addw
    rw [add_zero]
    exact Int.emod_eq_of_lt hN0 hN
  unfold widenIncEmitted widenIncRHS
  simp only [c1LatchCheck, c1RangeCheck, hm1, hz, hsub, hadd]
  rfl

/-- C1 (witness for the amended theorem at width 8, `N = 5`, `M = 3`). -/
theorem C1_amended_witness :
    widenIncEmitted 8 (c1LatchCheck 8 3) (c1RangeCheck 5) =
      (evalPred 8 .ult 0 5 && evalPred 8 .sle 3 5) :=
  C1_amended 8 5 3 (by decide) (by decide) (by decide)

/-- C2 (counterexample).  The claim asserts the emitted limit comparison is
`latchLimit <pred'> (guardLimit - guardStart + latchStart - 1)` with `pred'`
obtained by the direction-reversing mapping `<` to `>=` and `<=` to `>`.
With latch `s<` (start 0, limit 0) and guard `u<` (start 0, limit 5) at
width 8, the code emits `0 s<= 4` (true, so the whole emitted condition is
true), while the claimed condition `0 s>= 4` is false. -/
theorem C2_counterexample :
    widenIncEmitted 8 ⟨.slt, 0, 0⟩ ⟨.ult, 0, 5⟩ = true ∧
    c2ClaimedEmitted 8 ⟨.slt, 0, 0⟩ ⟨.ult, 0, 5⟩ = false := by
  decide

/-- C2 (amended).  For every widened sub-condition in an increasing loop
(step +1), the emitted replacement is the conjunction of (a) the guard check
evaluated at the loop's start value and (b) the comparison
`latchLimit <pred'> (guardLimit - guardStart + latchStart - 1)`, where
`pred'` is obtained from the latch predicate by toggling strictness while
preserving direction and signedness: `<` maps to `<=` and `<=` maps to `<`. -/
theorem C2_amended (w : Nat) (latch rc : LoopICmpV)
    (h : latch.pred = .ult ∨ latch.pred = .ule ∨ latch.pred = .slt ∨
      latch.pred = .sle) :
    widenIncEmitted w latch rc = c2AmendedEmitted w latch rc := by
  unfold widenIncEmitted c2AmendedEmitted widenIncRHS specIncRHS
  rw [addw_subw_one]
  rcases h with h | h | h | h <;> rw [h] <;> rfl

/-- C2 (witness for the amended theorem at width 8 with an unsigned latch). -/
theorem C2_amended_witness :
    widenIncEmitted 8 ⟨.ult, 2, 7⟩ ⟨.ult, 1, 9⟩ =
      c2AmendedEmitted 8 ⟨.ult, 2, 7⟩ ⟨.ult, 1, 9⟩ :=
  C2_amended 8 ⟨.ult, 2, 7⟩ ⟨.ult, 1, 9⟩ (Or.inl rfl)

theorem countWC_append (l1 l2 : List CVal) :
    countWC (l1 ++ l2) = countWC l1 + countWC l2 := by
  simp [countWC, List.filter_append]

theorem fresh_not_mem {vis : List CVal} {c y : CVal}
    (h : fresh vis c y = true) : c ∉ vis := by
  intro hmem
  cases c <;> simp [fresh, hmem] at h

theorem fresh_nil_iff (i : Nat) (c : CVal) :
    fresh [] c (CVal.wc i) = true ↔ CVal.wc i ∈ nodes c := by
  induction c with
  | cand l r ihl ihr => simp [fresh, nodes, ihl, ihr]
  | wc j => simp [fresh, nodes, eq_comm]
  | icmp j => simp [fresh, nodes]
  | other j => simp [fresh, nodes]

theorem fresh_insert_cand {i : Nat} {vis : List CVal} {l r : CVal} :
    ∀ c' : CVal, fresh vis c' (CVal.wc i) = true →
      fresh (CVal.cand l r :: vis) c' (CVal.wc i) = false →
      (fresh (CVal.cand l r :: vis) l (CVal.wc i) ||
        fresh (CVal.cand l r :: vis) r (CVal.wc i)) = true := by
  intro c'
  induction c' with
  | cand a b iha ihb =>
    intro h1 h2
    by_cases hm : CVal.cand a b ∈ vis
    · simp [fresh, hm] at h1
    · simp only [fresh, if_neg hm] at h1
      by_cases hc : CVal.cand a b = CVal.cand l r
      · obtain ⟨hl, hr⟩ : a = l ∧ b = r := by
          injection hc with hl hr
          exact ⟨hl, hr⟩
        subst hl
        subst hr
        simp only [decide_eq_true_eq, Bool.or_eq_true] at h1
        rcases h1 with (h1 | h1) | h1
        · exact absurd h1 (by simp)
        · by_cases hfa : fresh (CVal.cand a b :: vis) a (CVal.wc i) = true
          · simp [hfa]
          · exact iha h1 (by simpa using hfa)
        · by_cases hfb : fresh (CVal.cand a b :: vis) b (CVal.wc i) = true
          · simp [hfb]
          · exact ihb h1 (by simpa using hfb)
      · have hm2 : CVal.cand a b ∉ (CVal.cand l r :: vis) := by
          simp [hm, hc]
        simp only [fresh, if_neg hm2, decide_eq_true_eq, Bool.or_eq_true,
          Bool.or_eq_false_iff] at h2
        simp only [decide_eq_true_eq, Bool.or_eq_true] at h1
        rcases h1 with (h1 | h1) | h1
        · exact absurd h1 (by simp)
        · exact iha h1 (by simp [h2.1.2])
        · exact ihb h1 (by simp [h2.2])
  | wc j =>
    intro h1 h2
    by_cases hm : CVal.wc j ∈ vis
    · simp [fresh, hm] at h1
    · have hm2 : CVal.wc j ∉ (CVal.cand l r :: vis) := by simp [hm]
      simp only [fresh, if_neg hm, decide_eq_true_eq] at h1
      simp only [fresh, if_neg hm2, decide_eq_true_eq] at h2
      simp [h1] at h2
  | icmp j =>
    intro h1 h2
    by_cases hm : CVal.icmp j ∈ vis
    · simp [fresh, hm] at h1
    · simp [fresh, hm] at h1
  | other j =>
    intro h1 h2
    by_cases hm : CVal.other j ∈ vis
    · simp [fresh, hm] at h1
    · simp [fresh, hm] at h1

theorem fresh_insert_nonand {i : Nat} {vis : List CVal} {z : CVal}
    (hz : ∀ a b, z ≠ CVal.cand a b) (hzy : z ≠ CVal.wc i) :
    ∀ c', fresh vis c' (CVal.wc i) = true →
      fresh (z :: vis) c' (CVal.wc i) = true := by
  intro c'
  induction c' with
  | cand a b iha ihb =>
    intro h1
    by_cases hm : CVal.cand a b ∈ vis
    · simp [fresh, hm] at h1
    · have hm2 : CVal.cand a b ∉ (z :: vis) := by
        simp only [List.mem_cons]
        rintro (hc | hc)
        · exact hz a b hc.symm
        · exact hm hc
      simp only [fresh, if_neg hm, decide_eq_true_eq, Bool.or_eq_true] at h1
      simp only [fresh, if_neg hm2, decide_eq_true_eq, Bool.or_eq_true]
      rcases h1 with (h1 | h1) | h1
      · exact absurd h1 (by simp)
      · exact Or.inl (Or.inr (iha h1))
      · exact Or.inr (ihb h1)
  | wc j =>
    intro h1
    by_cases hm : CVal.wc j ∈ vis
    · simp [fresh, hm] at h1
    · simp only [fresh, if_neg hm, decide_eq_true_eq] at h1
      have hm2 : CVal.wc j ∉ (z :: vis) := by
        simp only [List.mem_cons]
        rintro (hc | hc)
        · rw [h1] at hc
          exact hzy hc.symm
        · exact hm hc
      rw [h1] at hm2 ⊢
      simp [fresh, hm2]
  | icmp j =>
    intro h1
    by_cases hm : CVal.icmp j ∈ vis <;> simp [fresh, hm] at h1
  | other j =>
    intro h1
    by_cases hm : CVal.other j ∈ vis <;> simp [fresh, hm] at h1

theorem collectAux_checks (f : Nat → Option Nat) (wl vis checks : List CVal)
    (wd : Option CVal) (nw : Nat) (h : countWC checks = 0) :
    countWC (collectChecksAux f wl vis checks wd nw).1 = 0 := by
  revert h
  induction wl, vis, checks, wd, nw using collectChecksAux.induct f with
  | case1 vis checks wd nw =>
    intro h
    rw [collectChecksAux.eq_def]
    exact h
  | case2 vis checks wd nw c rest hmem ih =>
    intro h
    rw [collectChecksAux.eq_def]
    simp only [if_pos hmem]
    exact ih h
  | case3 vis checks wd nw rest l r hmem ih =>
    intro h
    rw [collectChecksAux.eq_def]
    simp only [if_neg hmem]
    exact ih h
  | case4 vis checks wd nw rest i hmem ih =>
    intro h
    rw [collectChecksAux.eq_def]
    simp only [if_neg hmem]
    exact ih h
  | case5 vis checks wd nw rest i k hf hmem ih =>
    intro h
    rw [collectChecksAux.eq_def]
    simp only [if_neg hmem, hf]
    exact ih (by rw [countWC_append, h]; rfl)
  | case6 vis checks wd nw rest i hf hmem ih =>
    intro h
    rw [collectChecksAux.eq_def]
    simp only [if_neg hmem, hf]
    exact ih (by rw [countWC_append, h]; rfl)
  | case7 vis checks wd nw rest i hmem ih =>
    intro h
    rw [collectChecksAux.eq_def]
    simp only [if_neg hmem]
    exact ih (by rw [countWC_append, h]; rfl)

theorem collectAux_wd_shape (f : Nat → Option Nat)
    (wl vis checks : List CVal) (wd : Option CVal) (nw : Nat)
    (h : wd = none ∨ ∃ i, wd = some (CVal.wc i)) :
    (collectChecksAux f wl vis checks wd nw).2.1 = none ∨
      ∃ i, (collectChecksAux f wl vis checks wd nw).2.1 = some (CVal.wc i) := by
  revert h
  induction wl, vis, checks, wd, nw using collectChecksAux.induct f with
  | case1 vis checks wd nw =>
    intro h
    rw [collectChecksAux.eq_def]
    exact h
  | case2 vis checks wd nw c rest hmem ih =>
    intro h
    rw [collectChecksAux.eq_def]
    simp only [if_pos hmem]
    exact ih h
  | case3 vis checks wd nw rest l r hmem ih =>
    intro h
    rw [collectChecksAux.eq_def]
    simp only [if_neg hmem]
    exact ih h
  | case4 vis checks wd nw rest i hmem ih =>
    intro h
    rw [collectChecksAux.eq_def]
    simp only [if_neg hmem]
    exact ih (Or.inr ⟨i, rfl⟩)
  | case5 vis checks wd nw rest i k hf hmem ih =>
    intro h
    rw [collectChecksAux.eq_def]
    simp only [if_neg hmem, hf]
    exact ih h
  | case6 vis checks wd nw rest i hf hmem ih =>
    intro h
    rw [collectChecksAux.eq_def]
    simp only [if_neg hmem, hf]
    exact ih h
  | case7 vis checks wd nw rest i hmem ih =>
    intro h
    rw [collectChecksAux.eq_def]
    simp only [if_neg hmem]
    exact ih h

theorem collectAux_wideable (f : Nat → Option Nat) (j : Nat)
    (wl vis checks : List CVal) (wd : Option CVal) (nw : Nat)
    (h : wd.isSome = true ∨ ∃ c ∈ wl, fresh vis c (CVal.wc j) = true) :
    (collectChecksAux f wl vis checks wd nw).2.1.isSome = true := by
  revert h
  induction wl, vis, checks, wd, nw using collectChecksAux.induct f with
  | case1 vis checks wd nw =>
    intro h
    rw [collectChecksAux.eq_def]
    rcases h with h | ⟨c, hc, _⟩
    · exact h
    · simp at hc
  | case2 vis checks wd nw c rest hmem ih =>
    intro h
    rw [collectChecksAux.eq_def]
    simp only [if_pos hmem]
    refine ih ?_
    rcases h with h | ⟨c', hc', hf⟩
    · exact Or.inl h
    · rcases List.mem_cons.mp hc' with rfl | hc'
      · exact absurd hmem (fresh_not_mem hf)
      · exact Or.inr ⟨c', hc', hf⟩
  | case3 vis checks wd nw rest l r hmem ih =>
    intro h
    rw [collectChecksAux.eq_def]
    simp only [if_neg hmem]
    refine ih ?_
    rcases h with h | ⟨c', hc', hf⟩
    · exact Or.inl h
    · rcases List.mem_cons.mp hc' with rfl | hc'
      · simp only [fresh, if_neg hmem, decide_eq_true_eq,
          Bool.or_eq_true] at hf
        have hlr : fresh vis l (CVal.wc j) = true ∨
            fresh vis r (CVal.wc j) = true := by
          rcases hf with (hf | hf) | hf
          · exact absurd hf (by simp)
          · exact Or.inl hf
          · exact Or.inr hf
        rcases hlr with hf1 | hf1
        · by_cases hfl : fresh (CVal.cand l r :: vis) l (CVal.wc j) = true
          · exact Or.inr ⟨l, by simp, hfl⟩
          · have hor : fresh (CVal.cand l r :: vis) l (CVal.wc j) = true ∨
                fresh (CVal.cand l r :: vis) r (CVal.wc j) = true := by
              simpa using fresh_insert_cand l hf1 (by simpa using hfl)
            rcases hor with hh | hh
            · exact Or.inr ⟨l, by simp, hh⟩
            · exact Or.inr ⟨r, by simp, hh⟩
        · by_cases hfr : fresh (CVal.cand l r :: vis) r (CVal.wc j) = true
          · exact Or.inr ⟨r, by simp, hfr⟩
          · have hor : fresh (CVal.cand l r :: vis) l (CVal.wc j) = true ∨
                fresh (CVal.cand l r :: vis) r (CVal.wc j) = true := by
              simpa using fresh_insert_cand r hf1 (by simpa using hfr)
            rcases hor with hh | hh
            · exact Or.inr ⟨l, by simp, hh⟩
            · exact Or.inr ⟨r, by simp, hh⟩
      · by_cases hfc : fresh (CVal.cand l r :: vis) c' (CVal.wc j) = true
        · exact Or.inr ⟨c', by simp [hc'], hfc⟩
        · have hor : fresh (CVal.cand l r :: vis) l (CVal.wc j) = true ∨
              fresh (CVal.cand l r :: vis) r (CVal.wc j) = true := by
            simpa using fresh_insert_cand c' hf (by simpa using hfc)
          rcases hor with hh | hh
          · exact Or.inr ⟨l, by simp, hh⟩
          · exact Or.inr ⟨r, by simp, hh⟩
  | case4 vis checks wd nw rest i hmem ih =>
    intro h
    rw [collectChecksAux.eq_def]
    simp only [if_neg hmem]
    exact ih (Or.inl rfl)
  | case5 vis checks wd nw rest i k hf hmem ih =>
    intro h
    rw [collectChecksAux.eq_def]
    simp only [if_neg hmem, hf]
    refine ih ?_
    rcases h with h | ⟨c', hc', hfr⟩
    · exact Or.inl h
    · rcases List.mem_cons.mp hc' with rfl | hc'
      · simp [fresh, hmem] at hfr
      · refine Or.inr ⟨c', hc', fresh_insert_nonand ?_ ?_ c' hfr⟩
        · intro a b hctr
          exact CVal.noConfusion hctr
        · intro hctr
          exact CVal.noConfusion hctr
  | case6 vis checks wd nw rest i hf hmem ih =>
    intro h
    rw [collectChecksAux.eq_def]
    simp only [if_neg hmem, hf]
    refine ih ?_
    rcases h with h | ⟨c', hc', hfr⟩
    · exact Or.inl h
    · rcases List.mem_cons.mp hc' with rfl | hc'
      · simp [fresh, hmem] at hfr
      · refine Or.inr ⟨c', hc', fresh_insert_nonand ?_ ?_ c' hfr⟩
        · intro a b hctr
          exact CVal.noConfusion hctr
        · intro hctr
          exact CVal.noConfusion hctr
  | case7 vis checks wd nw rest i hmem ih =>
    intro h
    rw [collectChecksAux.eq_def]
    simp only [if_neg hmem]
    refine ih ?_
    rcases h with h | ⟨c', hc', hfr⟩
    · exact Or.inl h
    · rcases List.mem_cons.mp hc' with rfl | hc'
      · simp [fresh, hmem] at hfr
      · refine Or.inr ⟨c', hc', fresh_insert_nonand ?_ ?_ c' hfr⟩
        · intro a b hctr
          exact CVal.noConfusion hctr
        · intro hctr
          exact CVal.noConfusion hctr

/-- C6 (counterexample).  The claim asserts `parseLoopICmp` fails exactly
when a side is not computable or the (swapped) left side is not an *affine*
expression of this loop's induction variable.  On the non-affine add
recurrence `(0,+,1,+,1)` of loop 0 compared against an invariant right side,
no swap happens, the left side is not affine, yet the parse succeeds. -/
theorem C6_counterexample :
    (parseLoopICmpM 0 .ult (ScevE.addRec 0 [0, 1, 1]) (ScevE.inv 7)).isSome
        = true ∧
    isAffineAddRecOf 0 (ScevE.addRec 0 [0, 1, 1]) = false ∧
    isLoopInvariantScev (ScevE.addRec 0 [0, 1, 1]) 0 = false := by
  decide

/-- C6 (amended).  `parseLoopICmp` returns no result exactly when either
operand's symbolic form cannot be computed, or the left side after the
canonicalizing swap (which moves a loop-invariant left operand to the right
and inverts the predicate) is not an add recurrence of this loop — affinity
of the recurrence is not required at this stage (it is checked separately by
the callers); in all other cases it returns the parsed comparison. -/
theorem C6_amended (l : Nat) (p : Pred) (lhs rhs : ScevE) :
    parseLoopICmpM l p lhs rhs = none ↔
      (lhs = ScevE.couldNotCompute ∨ rhs = ScevE.couldNotCompute ∨
        isAddRecOfLoop l (if isLoopInvariantScev lhs l then rhs else lhs)
          = false) := by
  unfold parseLoopICmpM
  by_cases h1 : lhs = ScevE.couldNotCompute
  · simp [h1]
  · by_cases h2 : rhs = ScevE.couldNotCompute
    · simp [h1, h2]
    · simp only [h1, h2, if_false, if_neg, eq_self_iff_true, false_or]
      cases hsw : isLoopInvariantScev lhs l
      · simp only [hsw, if_false, Bool.false_eq_true]
        cases lhs <;> simp [isAddRecOfLoop, h1]
      · simp only [hsw, if_true]
        cases rhs <;> simp [isAddRecOfLoop, h2]

/-- C6 (witness for the amended theorem: both sides invariant, so the swap
fires and the swapped left side is not an add recurrence of the loop). -/
theorem C6_amended_witness :
    parseLoopICmpM 0 .ult (ScevE.inv 3) (ScevE.inv 4) = none ↔
      (ScevE.inv 3 = ScevE.couldNotCompute ∨
        ScevE.inv 4 = ScevE.couldNotCompute ∨
        isAddRecOfLoop 0
          (if isLoopInvariantScev (ScevE.inv 3) 0 then ScevE.inv 4
           else ScevE.inv 3) = false) :=
  C6_amended 0 .ult (ScevE.inv 3) (ScevE.inv 4)

theorem hasWC_exists {c : CVal} (h : hasWC c = true) :
    ∃ i, CVal.wc i ∈ nodes c := by
  simp only [hasWC, List.any_eq_true] at h
  obtain ⟨y, hy, hwc⟩ := h
  cases y with
  | wc i => exact ⟨i, hy⟩
  | cand l r => simp [isWC] at hwc
  | icmp i => simp [isWC] at hwc
  | other i => simp [isWC] at hwc

/-- C10.  When decomposing a guard condition into sub-conditions,
`collectChecks` keeps at most one occurrence of the widenable-condition
intrinsic call: the resulting check list never holds more than one such
call, and if the conjunction contains any (even several), exactly one is
retained and it is appended after all other (widened or unwidened)
sub-conditions. -/
theorem C10_collectChecks (f : Nat → Option Nat) (cond : CVal) :
    countWC (collectChecksM f cond).1 ≤ 1 ∧
    (hasWC cond = true →
      ∃ l i, (collectChecksM f cond).1 = l ++ [CVal.wc i] ∧ countWC l = 0) := by
  have hch := collectAux_checks f [cond] [] [] none 0 rfl
  have hsh := collectAux_wd_shape f [cond] [] [] none 0 (Or.inl rfl)
  unfold collectChecksM
  rcases hres : collectChecksAux f [cond] [] [] none 0 with ⟨checks, wd, nw⟩
  rw [hres] at hch hsh
  simp only at hch hsh
  cases wd with
  | none =>
    constructor
    · simp [hch]
    · intro hwc
      obtain ⟨i, hi⟩ := hasWC_exists hwc
      have hwide := collectAux_wideable f i [cond] [] [] none 0
        (Or.inr ⟨cond, by simp, (fresh_nil_iff i cond).mpr hi⟩)
      rw [hres] at hwide
      simp at hwide
  | some w =>
    rcases hsh with hsh | ⟨i, hsh⟩
    · simp at hsh
    · have hw : w = CVal.wc i := by
        simpa using hsh
      subst hw
      constructor
      · rw [countWC_append, hch]
        simp [countWC, isWC]
      · intro _
        exact ⟨checks, i, rfl, hch⟩

/-- C10 (witness): on a conjunction holding two distinct
widenable-condition calls, exactly one is kept, at the end of the check
list. -/
theorem C10_witness :
    hasWC c10cond = true ∧
    ∃ l i, (collectChecksM c10f c10cond).1 = l ++ [CVal.wc i] ∧
      countWC l = 0 :=
  ⟨by decide, (C10_collectChecks c10f c10cond).2 (by decide)⟩

theorem depCheckedPairs_mem (fc0 fc1 : FusionCandidateM) (pr : Nat × Nat) :
    pr ∈ depCheckedPairs fc0 fc1 ↔
      ((pr.1 ∈ fc0.memWrites ∧ pr.2 ∈ fc1.memWrites) ∨
        (pr.1 ∈ fc0.memWrites ∧ pr.2 ∈ fc1.memReads) ∨
        (pr.1 ∈ fc0.memReads ∧ pr.2 ∈ fc1.memWrites)) := by
  rcases pr with ⟨a, b⟩
  simp only [depCheckedPairs, List.mem_append, List.mem_flatMap,
    List.mem_map, Prod.mk.injEq]
  constructor
  · rintro (((⟨w0, hw0, w1, hw1, he1, he2⟩ | ⟨w0, hw0, r1, hr1, he1, he2⟩) |
        ⟨w1, hw1, w0, hw0, he1, he2⟩) | ⟨w1, hw1, r0, hr0, he1, he2⟩) <;>
      subst he1 <;> subst he2
    · exact Or.inl ⟨hw0, hw1⟩
    · exact Or.inr (Or.inl ⟨hw0, hr1⟩)
    · exact Or.inl ⟨hw0, hw1⟩
    · exact Or.inr (Or.inr ⟨hr0, hw1⟩)
  · rintro (⟨h1, h2⟩ | ⟨h1, h2⟩ | ⟨h1, h2⟩)
    · exact Or.inl (Or.inl (Or.inl ⟨a, h1, b, h2, rfl, rfl⟩))
    · exact Or.inl (Or.inl (Or.inr ⟨a, h1, b, h2, rfl, rfl⟩))
    · exact Or.inr ⟨b, h2, a, h1, rfl, rfl⟩

/-- C3 (counterexample).  The claim asserts that for an access-type pair
where aliasing at the same element would be unsafe (here: two writes), the
SCEV comparison requires strict `>` so that provable equality blocks
fusion.  On a write/write pair whose addresses are provably equal (`SGE`
provable, `SGT` not), the dependence check nevertheless allows fusion,
because every pair is tested with `AnyDep = false` and hence with `SGE`. -/
theorem C3_counterexample :
    dependencesAllowFusionM c3pinfo .scev false c3fc0 c3fc1 = true ∧
    (c3pinfo 0 1).knownSGE = true ∧ (c3pinfo 0 1).knownSGT = false := by
  decide

/-- C3 (amended).  In the pairwise dependence-safety check of loop fusion,
every access pair — including write/write and write/read pairs — is tested
with the equality-is-invalid flag false, so the SCEV-based address
comparison only requires the first loop's rewritten address to be provably
greater-or-equal (`>=`) the second loop's address; provable equality of the
two addresses alone never blocks fusion. -/
theorem C3_amended :
    (∀ p : AccessPair, accessDiffIsPositiveM p false =
        (p.hasPtr0 && p.hasPtr1 && p.rewriteValid && !p.nonLinearDom &&
          p.knownSGE)) ∧
    (∀ (pinfo : Nat → Nat → AccessPair) (dc : DepChoice) (cross : Bool)
        (fc0 fc1 : FusionCandidateM),
      dependencesAllowFusionM pinfo dc cross fc0 fc1 = true ↔
        ((∀ pr ∈ depCheckedPairs fc0 fc1,
            dependencesAllowFusionPairM (pinfo pr.1 pr.2) false dc = true) ∧
          cross = false)) := by
  constructor
  · intro p
    rcases p with ⟨h0, h1, rv, nl, sgt, sge, da⟩
    cases h0 <;> cases h1 <;> cases rv <;> cases nl <;>
      simp [accessDiffIsPositiveM]
  · intro pinfo dc cross fc0 fc1
    simp only [dependencesAllowFusionM, Bool.and_eq_true, List.all_eq_true,
      Bool.not_eq_true']
    constructor
    · rintro ⟨⟨hA, hB⟩, hcross⟩
      refine ⟨?_, hcross⟩
      intro pr hpr
      rcases (depCheckedPairs_mem fc0 fc1 pr).mp hpr with
        ⟨h1, h2⟩ | ⟨h1, h2⟩ | ⟨h1, h2⟩
      · exact (hA pr.1 h1).1 pr.2 h2
      · exact (hA pr.1 h1).2 pr.2 h2
      · exact (hB pr.2 h2).2 pr.1 h1
    · rintro ⟨hall, hcross⟩
      refine ⟨⟨?_, ?_⟩, hcross⟩
      · intro w0 hw0
        refine ⟨?_, ?_⟩
        · intro w1 hw1
          exact hall (w0, w1)
            ((depCheckedPairs_mem fc0 fc1 (w0, w1)).mpr (Or.inl ⟨hw0, hw1⟩))
        · intro r1 hr1
          exact hall (w0, r1)
            ((depCheckedPairs_mem fc0 fc1 (w0, r1)).mpr
              (Or.inr (Or.inl ⟨hw0, hr1⟩)))
      · intro w1 hw1
        refine ⟨?_, ?_⟩
        · intro w0 hw0
          exact hall (w0, w1)
            ((depCheckedPairs_mem fc0 fc1 (w0, w1)).mpr (Or.inl ⟨hw0, hw1⟩))
        · intro r0 hr0
          exact hall (r0, w1)
            ((depCheckedPairs_mem fc0 fc1 (r0, w1)).mpr
              (Or.inr (Or.inr ⟨hr0, hw1⟩)))

/-- C3 (witness for the amended theorem at the counterexample inputs). -/
theorem C3_amended_witness :
    dependencesAllowFusionM c3pinfo .scev false c3fc0 c3fc1 = true ↔
      ((∀ pr ∈ depCheckedPairs c3fc0 c3fc1,
          dependencesAllowFusionPairM (c3pinfo pr.1 pr.2) false .scev
            = true) ∧
        false = false) :=
  C3_amended.2 c3pinfo .scev false c3fc0 c3fc1

/-- C4 (counterexample).  The claim asserts that when the first candidate
is unguarded, adjacency holds iff its exit block *is* the second
candidate's preheader.  Here the first candidate's exit block (10) is the
second candidate's preheader, but the second candidate is guarded (guard
block 20), so `isAdjacent` compares against the guard block and fails. -/
theorem C4_counterexample :
    isAdjacentM c4fc0 c4fc1 = false ∧ c4fc0.exitBlock = c4fc1.preheader ∧
    c4fc0.guardBranch = none := by
  decide

/-- C4 (amended).  For every pair of fusion candidates in which the first
(dominating) candidate has no guard branch, the adjacency test succeeds iff
the first candidate's exit block is the second candidate's *entry block* —
the guard branch's block when the second candidate is guarded, its
preheader otherwise; in particular when both are unguarded it succeeds iff
the first's exit block is the second's preheader, i.e. no code executes
between the two loops. -/
theorem C4_amended (fc0 fc1 : FusionCandidateM)
    (h : fc0.guardBranch = none) :
    (isAdjacentM fc0 fc1 = true ↔ fc0.exitBlock = fc1.entryBlock) ∧
    (fc1.guardBranch = none →
      (isAdjacentM fc0 fc1 = true ↔ fc0.exitBlock = fc1.preheader)) := by
  constructor
  · simp [isAdjacentM, h]
  · intro h1
    simp [isAdjacentM, FusionCandidateM.entryBlock, h, h1]

/-- C4 (witness for the amended theorem on two unguarded candidates). -/
theorem C4_amended_witness :
    (isAdjacentM c4fc0 c4fc2 = true ↔ c4fc0.exitBlock = c4fc2.entryBlock) ∧
    (c4fc2.guardBranch = none →
      (isAdjacentM c4fc0 c4fc2 = true ↔
        c4fc0.exitBlock = c4fc2.preheader)) :=
  C4_amended c4fc0 c4fc2 rfl

/-- C8.  The control-flow-equivalence test on fusion candidates is
symmetric: given that the dominance relation is antisymmetric (as dominance
on a CFG is), `isControlFlowEquivalent(A, B)` always returns the same
result as `isControlFlowEquivalent(B, A)`. -/
theorem C8_cfeSymmetric (dom pdom : BB → BB → Bool)
    (hanti : ∀ a b, dom a b = true → dom b a = true → a = b)
    (fc0 fc1 : FusionCandidateM) :
    isControlFlowEquivalentM dom pdom fc0 fc1 =
      isControlFlowEquivalentM dom pdom fc1 fc0 := by
  unfold isControlFlowEquivalentM
  by_cases h01 : dom fc0.entryBlock fc1.entryBlock = true
  · by_cases h10 : dom fc1.entryBlock fc0.entryBlock = true
    · rw [hanti _ _ h01 h10]
    · simp [h01, h10]
  · by_cases h10 : dom fc1.entryBlock fc0.entryBlock = true
    · simp [h01, h10]
    · simp [h01, h10]

/-- C8 (witness at a concrete antisymmetric dominance oracle and two
candidates with distinct entry blocks). -/
theorem C8_witness :
    isControlFlowEquivalentM domEqB pdomAllB c3fc0 c4fc2 =
      isControlFlowEquivalentM domEqB pdomAllB c4fc2 c3fc0 :=
  C8_cfeSymmetric domEqB pdomAllB
    (fun a b h1 _h2 => by simpa [domEqB] using h1) c3fc0 c4fc2

/-- C9.  The dominance comparator of the fusion candidate set is
irreflexive: given that dominance is reflexive (a block dominates itself),
comparing a candidate with itself — or any two candidates sharing the same
entry block — returns false, because the query whether the right entry
block dominates the left one is performed first; hence a candidate never
sorts before itself. -/
theorem C9_compareIrreflexive (dom : BB → BB → Bool)
    (hrefl : ∀ b, dom b b = true) (lhs rhs : FusionCandidateM)
    (h : lhs.entryBlock = rhs.entryBlock) :
    fusionCandidateCompareM dom lhs rhs = some false := by
  unfold fusionCandidateCompareM
  rw [h]
  simp [hrefl rhs.entryBlock]

/-- C9 (witness: a candidate compared with itself under the concrete
reflexive dominance oracle). -/
theorem C9_witness :
    fusionCandidateCompareM domEqB c3fc0 c3fc0 = some false :=
  C9_compareIrreflexive domEqB (fun b => by simp [domEqB]) c3fc0 c3fc0 rfl

theorem counts_reportFusionS (s : Stats) (n m : StatName) :
    (reportFusionS s n).counts m =
      if m = n then s.counts m + 1 else s.counts m := by
  simp [reportFusionS, Stats.bump]

theorem remarks_reportFusionS (s : Stats) (n : StatName) :
    (reportFusionS s n).remarks = s.remarks ++ [n] := rfl

theorem tcS_fst (s : Stats) (fc0 fc1 : FusionCandidateM) :
    (identicalTripCountsS s fc0 fc1).1 = identicalTripCountsB fc0 fc1 := by
  unfold identicalTripCountsS identicalTripCountsB
  split_ifs <;> rfl

theorem tcS_counts (s : Stats) (fc0 fc1 : FusionCandidateM) (n : StatName)
    (h : n ≠ StatName.uncomputableTripCount) :
    (identicalTripCountsS s fc0 fc1).2.counts n = s.counts n := by
  unfold identicalTripCountsS
  split_ifs <;> simp [Stats.bump, h]

theorem tcS_remarks (s : Stats) (fc0 fc1 : FusionCandidateM) :
    (identicalTripCountsS s fc0 fc1).2.remarks = s.remarks := by
  unfold identicalTripCountsS
  split_ifs <;> rfl

theorem depS_fst (pinfo : Nat → Nat → AccessPair) (dc : DepChoice)
    (cross : Bool) (fc0 fc1 : FusionCandidateM) (s : Stats) :
    (dependencesAllowFusionS pinfo dc cross fc0 fc1 s).1 =
      dependencesAllowFusionM pinfo dc cross fc0 fc1 := by
  unfold dependencesAllowFusionS
  split_ifs with h <;> simp [h]

theorem depS_counts (pinfo : Nat → Nat → AccessPair) (dc : DepChoice)
    (cross : Bool) (fc0 fc1 : FusionCandidateM) (s : Stats) (n : StatName)
    (h : n ≠ StatName.invalidDependencies) :
    (dependencesAllowFusionS pinfo dc cross fc0 fc1 s).2.counts n =
      s.counts n := by
  unfold dependencesAllowFusionS
  split_ifs <;> simp [Stats.bump, h]

theorem depS_counts_false (pinfo : Nat → Nat → AccessPair) (dc : DepChoice)
    (cross : Bool) (fc0 fc1 : FusionCandidateM) (s : Stats)
    (h : dependencesAllowFusionM pinfo dc cross fc0 fc1 = false) :
    (dependencesAllowFusionS pinfo dc cross fc0 fc1 s).2.counts
        StatName.invalidDependencies =
      s.counts StatName.invalidDependencies + 1 := by
  unfold dependencesAllowFusionS
  simp [h, Stats.bump]

theorem depS_remarks (pinfo : Nat → Nat → AccessPair) (dc : DepChoice)
    (cross : Bool) (fc0 fc1 : FusionCandidateM) (s : Stats) :
    (dependencesAllowFusionS pinfo dc cross fc0 fc1 s).2.remarks =
      s.remarks := by
  unfold dependencesAllowFusionS
  split_ifs <;> rfl

/-- C5.  The trip-count equality test accepts a pair iff both loops'
symbolic backedge-taken counts are computable and are the very same
normalized symbolic expression (pointer identity of the uniqued SCEV, i.e.
structural equality here), not merely values provable equal; and when it
fails, the pipeline rejects the pair, bumps the named statistic
`NonEqualTripCount` and emits the corresponding remark. -/
theorem C5_tripCounts (fc0 fc1 : FusionCandidateM) (s : Stats) :
    ((identicalTripCountsS s fc0 fc1).1 = true ↔
      (fc0.tripCount ≠ ScevE.couldNotCompute ∧
        fc1.tripCount ≠ ScevE.couldNotCompute ∧
        fc0.tripCount = fc1.tripCount)) ∧
    (∀ (bs : BB → Nat) (pinfo : Nat → Nat → AccessPair) (dc : DepChoice)
        (cross : Bool),
      (identicalTripCountsS s fc0 fc1).1 = false →
        (processPair bs pinfo dc cross fc0 fc1 s).1 =
          some StatName.nonEqualTripCount ∧
        (processPair bs pinfo dc cross fc0 fc1 s).2.counts
            StatName.nonEqualTripCount =
          s.counts StatName.nonEqualTripCount + 1 ∧
        (processPair bs pinfo dc cross fc0 fc1 s).2.remarks =
          s.remarks ++ [StatName.nonEqualTripCount]) := by
  constructor
  · unfold identicalTripCountsS
    split_ifs with hc1 hc2
    · simp [hc1]
    · simp [hc1, hc2]
    · simp [hc1, hc2]
  · intro bs pinfo dc cross hfalse
    have hp : processPair bs pinfo dc cross fc0 fc1 s =
        (some StatName.nonEqualTripCount,
          reportFusionS (identicalTripCountsS s fc0 fc1).2
            StatName.nonEqualTripCount) := by
      unfold processPair
      simp [hfalse]
    rw [hp]
    refine ⟨rfl, ?_, ?_⟩
    · rw [counts_reportFusionS, if_pos rfl,
        tcS_counts s fc0 fc1 _ (by decide)]
    · rw [remarks_reportFusionS, tcS_remarks]

/-- C5 (witness: two computable but different trip counts are rejected with
the `NonEqualTripCount` outcome). -/
theorem C5_witness :
    (identicalTripCountsS stats0 c5fc0 c5fc1).1 = false ∧
    (processPair c7bs c3pinfo .all false c5fc0 c5fc1 stats0).1 =
      some StatName.nonEqualTripCount := by
  have h := (C5_tripCounts c5fc0 c5fc1 stats0).2 c7bs c3pinfo .all false
    (by decide)
  exact ⟨by decide, h.1⟩

/-- C7.  Within a fusion candidate set, every candidate pair is tested in
the fixed order trip-count equality, adjacency, guard identity, emptiness
of the second loop's preheader, emptiness of the first loop's exit block
(guarded), emptiness of the second loop's guard block (guarded), dependence
safety, profitability; the first failing check determines the reported
outcome, its named statistic is incremented and exactly one
missed-optimization remark is emitted for the pair, the statistics of all
checks after the first failing one stay untouched (they are skipped), and
the pair loop continues with the next pair rather than aborting: over any
list of pairs, every pair contributes exactly its own remark. -/
theorem C7_pipeline :
    (∀ (bs : BB → Nat) (pinfo : Nat → Nat → AccessPair) (dc : DepChoice)
        (cross : Bool) (fc0 fc1 : FusionCandidateM) (s : Stats),
      (processPair bs pinfo dc cross fc0 fc1 s).1 =
          firstFailure (c7CheckOrder bs pinfo dc cross fc0 fc1) ∧
        (processPair bs pinfo dc cross fc0 fc1 s).2.remarks =
          s.remarks ++ [pairOutcome bs pinfo dc cross fc0 fc1] ∧
        (∀ n, (processPair bs pinfo dc cross fc0 fc1 s).1 = some n →
          s.counts n < (processPair bs pinfo dc cross fc0 fc1 s).2.counts n) ∧
        (∀ c ∈ ((c7CheckOrder bs pinfo dc cross fc0 fc1).dropWhile
            (fun c => c.1)).tail,
          (processPair bs pinfo dc cross fc0 fc1 s).2.counts c.2 =
            s.counts c.2)) ∧
    (∀ (bs : BB → Nat) (pinfo : Nat → Nat → AccessPair) (dc : DepChoice)
        (cross : Bool) (ps : List (FusionCandidateM × FusionCandidateM))
        (s : Stats),
      (processPairList bs pinfo dc cross ps s).remarks =
        s.remarks ++ ps.map fun p => pairOutcome bs pinfo dc cross p.1 p.2) := by
  have hA : ∀ (bs : BB → Nat) (pinfo : Nat → Nat → AccessPair)
      (dc : DepChoice) (cross : Bool) (fc0 fc1 : FusionCandidateM)
      (s : Stats),
      (processPair bs pinfo dc cross fc0 fc1 s).1 =
          firstFailure (c7CheckOrder bs pinfo dc cross fc0 fc1) ∧
        (processPair bs pinfo dc cross fc0 fc1 s).2.remarks =
          s.remarks ++ [pairOutcome bs pinfo dc cross fc0 fc1] ∧
        (∀ n, (processPair bs pinfo dc cross fc0 fc1 s).1 = some n →
          s.counts n < (processPair bs pinfo dc cross fc0 fc1 s).2.counts n) ∧
        (∀ c ∈ ((c7CheckOrder bs pinfo dc cross fc0 fc1).dropWhile
            (fun c => c.1)).tail,
          (processPair bs pinfo dc cross fc0 fc1 s).2.counts c.2 =
            s.counts c.2) := by
    intro bs pinfo dc cross fc0 fc1 s
    cases h1 : identicalTripCountsB fc0 fc1 with
    | false =>
      have hp : processPair bs pinfo dc cross fc0 fc1 s =
          (some StatName.nonEqualTripCount,
            reportFusionS (identicalTripCountsS s fc0 fc1).2
              StatName.nonEqualTripCount) := by
        unfold processPair
        simp [tcS_fst, h1]
      refine ⟨?_, ?_, ?_, ?_⟩
      · rw [hp]
        simp [firstFailure, c7CheckOrder, h1]
      · rw [hp, remarks_reportFusionS, tcS_remarks]
        simp [pairOutcome, firstFailure, c7CheckOrder, h1]
      · intro n hn
        rw [hp] at hn ⊢
        obtain rfl : StatName.nonEqualTripCount = n := by simpa using hn
        rw [counts_reportFusionS, if_pos rfl,
          tcS_counts s fc0 fc1 _ (by decide)]
        omega
      · intro c hc
        simp only [c7CheckOrder, h1, List.dropWhile_cons, decide_eq_true_eq,
          if_false, Bool.false_eq_true, List.tail_cons, List.mem_cons,
          List.mem_singleton, List.not_mem_nil, or_false] at hc
        rw [hp]
        rcases hc with rfl | rfl | rfl | rfl | rfl | rfl | rfl <;>
          rw [counts_reportFusionS] <;>
          simp [tcS_counts]
    | true =>
    cases h2 : isAdjacentM fc0 fc1 with
    | false =>
      have hp : processPair bs pinfo dc cross fc0 fc1 s =
          (some StatName.nonAdjacent,
            reportFusionS (identicalTripCountsS s fc0 fc1).2
              StatName.nonAdjacent) := by
        unfold processPair
        simp [tcS_fst, h1, h2]
      refine ⟨?_, ?_, ?_, ?_⟩
      · rw [hp]
        simp [firstFailure, c7CheckOrder, h1, h2]
      · rw [hp, remarks_reportFusionS, tcS_remarks]
        simp [pairOutcome, firstFailure, c7CheckOrder, h1, h2]
      · intro n hn
        rw [hp] at hn ⊢
        obtain rfl : StatName.nonAdjacent = n := by simpa using hn
        rw [counts_reportFusionS, if_pos rfl,
          tcS_counts s fc0 fc1 _ (by decide)]
        omega
      · intro c hc
        simp only [c7CheckOrder, h1, h2, List.dropWhile_cons,
          decide_eq_true_eq, if_true, if_false, Bool.false_eq_true,
          List.tail_cons, List.mem_cons, List.mem_singleton,
          List.not_mem_nil, or_false] at hc
        rw [hp]
        rcases hc with rfl | rfl | rfl | rfl | rfl | rfl <;>
          rw [counts_reportFusionS] <;>
          simp [tcS_counts]
    | true =>
    cases h3 : guardIdentOKM fc0 fc1 with
    | false =>
      have hp : processPair bs pinfo dc cross fc0 fc1 s =
          (some StatName.nonIdenticalGuards,
            reportFusionS (identicalTripCountsS s fc0 fc1).2
              StatName.nonIdenticalGuards) := by
        unfold processPair
        simp [tcS_fst, h1, h2, h3]
      refine ⟨?_, ?_, ?_, ?_⟩
      · rw [hp]
        simp [firstFailure, c7CheckOrder, h1, h2, h3]
      · rw [hp, remarks_reportFusionS, tcS_remarks]
        simp [pairOutcome, firstFailure, c7CheckOrder, h1, h2, h3]
      · intro n hn
        rw [hp] at hn ⊢
        obtain rfl : StatName.nonIdenticalGuards = n := by simpa using hn
        rw [counts_reportFusionS, if_pos rfl,
          tcS_counts s fc0 fc1 _ (by decide)]
        omega
      · intro c hc
        simp only [c7CheckOrder, h1, h2, h3, List.dropWhile_cons,
          decide_eq_true_eq, if_true, if_false, Bool.false_eq_true,
          List.tail_cons, List.mem_cons, List.mem_singleton,
          List.not_mem_nil, or_false] at hc
        rw [hp]
        rcases hc with rfl | rfl | rfl | rfl | rfl <;>
          rw [counts_reportFusionS] <;>
          simp [tcS_counts]
    | true =>
    cases h4 : isEmptyPreheaderM bs fc1 with
    | false =>
      have hp : processPair bs pinfo dc cross fc0 fc1 s =
          (some StatName.nonEmptyPreheader,
            reportFusionS (identicalTripCountsS s fc0 fc1).2
              StatName.nonEmptyPreheader) := by
        unfold processPair
        simp [tcS_fst, h1, h2, h3, h4]
      refine ⟨?_, ?_, ?_, ?_⟩
      · rw [hp]
        simp [firstFailure, c7CheckOrder, h1, h2, h3, h4]
      · rw [hp, remarks_reportFusionS, tcS_remarks]
        simp [pairOutcome, firstFailure, c7CheckOrder, h1, h2, h3, h4]
      · intro n hn
        rw [hp] at hn ⊢
        obtain rfl : StatName.nonEmptyPreheader = n := by simpa using hn
        rw [counts_reportFusionS, if_pos rfl,
          tcS_counts s fc0 fc1 _ (by decide)]
        omega
      · intro c hc
        simp only [c7CheckOrder, h1, h2, h3, h4, List.dropWhile_cons,
          decide_eq_true_eq, if_true, if_false, Bool.false_eq_true,
          List.tail_cons, List.mem_cons, List.mem_singleton,
          List.not_mem_nil, or_false] at hc
        rw [hp]
        rcases hc with rfl | rfl | rfl | rfl <;>
          rw [counts_reportFusionS] <;>
          simp [tcS_counts]
    | true =>
    cases h5 : exitBlockOKM bs fc0 with
    | false =>
      have hp : processPair bs pinfo dc cross fc0 fc1 s =
          (some StatName.nonEmptyExitBlock,
            reportFusionS (identicalTripCountsS s fc0 fc1).2
              StatName.nonEmptyExitBlock) := by
        unfold processPair
        simp [tcS_fst, h1, h2, h3, h4, h5]
      refine ⟨?_, ?_, ?_, ?_⟩
      · rw [hp]
        simp [firstFailure, c7CheckOrder, h1, h2, h3, h4, h5]
      · rw [hp, remarks_reportFusionS, tcS_remarks]
        simp [pairOutcome, firstFailure, c7CheckOrder, h1, h2, h3, h4, h5]
      · intro n hn
        rw [hp] at hn ⊢
        obtain rfl : StatName.nonEmptyExitBlock = n := by simpa using hn
        rw [counts_reportFusionS, if_pos rfl,
          tcS_counts s fc0 fc1 _ (by decide)]
        omega
      · intro c hc
        simp only [c7CheckOrder, h1, h2, h3, h4, h5, List.dropWhile_cons,
          decide_eq_true_eq, if_true, if_false, Bool.false_eq_true,
          List.tail_cons, List.mem_cons, List.mem_singleton,
          List.not_mem_nil, or_false] at hc
        rw [hp]
        rcases hc with rfl | rfl | rfl <;>
          rw [counts_reportFusionS] <;>
          simp [tcS_counts]
    | true =>
    cases h6 : guardBlockOKM bs fc1 with
    | false =>
      have hp : processPair bs pinfo dc cross fc0 fc1 s =
          (some StatName.nonEmptyGuardBlock,
            reportFusionS (identicalTripCountsS s fc0 fc1).2
              StatName.nonEmptyGuardBlock) := by
        unfold processPair
        simp [tcS_fst, h1, h2, h3, h4, h5, h6]
      refine ⟨?_, ?_, ?_, ?_⟩
      · rw [hp]
        simp [firstFailure, c7CheckOrder, h1, h2, h3, h4, h5, h6]
      · rw [hp, remarks_reportFusionS, tcS_remarks]
        simp [pairOutcome, firstFailure, c7CheckOrder, h1, h2, h3, h4, h5,
          h6]
      · intro n hn
        rw [hp] at hn ⊢
        obtain rfl : StatName.nonEmptyGuardBlock = n := by simpa using hn
        rw [counts_reportFusionS, if_pos rfl,
          tcS_counts s fc0 fc1 _ (by decide)]
        omega
      · intro c hc
        simp only [c7CheckOrder, h1, h2, h3, h4, h5, h6,
          List.dropWhile_cons, decide_eq_true_eq, if_true, if_false,
          Bool.false_eq_true, List.tail_cons, List.mem_cons,
          List.mem_singleton, List.not_mem_nil, or_false] at hc
        rw [hp]
        rcases hc with rfl | rfl <;>
          rw [counts_reportFusionS] <;>
          simp [tcS_counts]
    | true =>
    cases h7 : dependencesAllowFusionM pinfo dc cross fc0 fc1 with
    | false =>
      have hp : processPair bs pinfo dc cross fc0 fc1 s =
          (some StatName.invalidDependencies,
            reportFusionS
              (dependencesAllowFusionS pinfo dc cross fc0 fc1
                (identicalTripCountsS s fc0 fc1).2).2
              StatName.invalidDependencies) := by
        unfold processPair
        simp [tcS_fst, h1, h2, h3, h4, h5, h6, depS_fst, h7]
      refine ⟨?_, ?_, ?_, ?_⟩
      · rw [hp]
        simp [firstFailure, c7CheckOrder, h1, h2, h3, h4, h5, h6, h7]
      · rw [hp, remarks_reportFusionS, depS_remarks, tcS_remarks]
        simp [pairOutcome, firstFailure, c7CheckOrder, h1, h2, h3, h4, h5,
          h6, h7]
      · intro n hn
        rw [hp] at hn ⊢
        obtain rfl : StatName.invalidDependencies = n := by simpa using hn
        rw [counts_reportFusionS, if_pos rfl,
          depS_counts_false _ _ _ _ _ _ h7,
          tcS_counts s fc0 fc1 _ (by decide)]
        omega
      · intro c hc
        simp only [c7CheckOrder, h1, h2, h3, h4, h5, h6, h7,
          List.dropWhile_cons, decide_eq_true_eq, if_true, if_false,
          Bool.false_eq_true, List.tail_cons, List.mem_cons,
          List.mem_singleton, List.not_mem_nil, or_false] at hc
        rw [hp]
        subst hc
        rw [counts_reportFusionS]
        simp [depS_counts, tcS_counts]
    | true =>
      have hp : processPair bs pinfo dc cross fc0 fc1 s =
          (none,
            reportFusionS
              (dependencesAllowFusionS pinfo dc cross fc0 fc1
                (identicalTripCountsS s fc0 fc1).2).2
              StatName.fuseCounter) := by
        unfold processPair
        simp [tcS_fst, h1, h2, h3, h4, h5, h6, depS_fst, h7,
          isBeneficialFusionM]
      refine ⟨?_, ?_, ?_, ?_⟩
      · rw [hp]
        simp [firstFailure, c7CheckOrder, h1, h2, h3, h4, h5, h6, h7,
          isBeneficialFusionM]
      · rw [hp, remarks_reportFusionS, depS_remarks, tcS_remarks]
        simp [pairOutcome, firstFailure, c7CheckOrder, h1, h2, h3, h4, h5,
          h6, h7, isBeneficialFusionM]
      · intro n hn
        rw [hp] at hn
        simp at hn
      · intro c hc
        simp only [c7CheckOrder, h1, h2, h3, h4, h5, h6, h7,
          isBeneficialFusionM, List.dropWhile_cons, decide_eq_true_eq,
          if_true, List.dropWhile_nil, List.tail_nil,
          List.not_mem_nil] at hc
  refine ⟨hA, ?_⟩
  intro bs pinfo dc cross ps s
  induction ps generalizing s with
  | nil => simp [processPairList]
  | cons p ps ih =>
    rw [processPairList, ih, (hA bs pinfo dc cross p.1 p.2 s).2.1]
    simp

/-- C7 (witness at a concrete pair failing the trip-count check). -/
theorem C7_witness :
    (processPair c7bs c3pinfo .all false c5fc0 c5fc1 stats0).1 =
      firstFailure (c7CheckOrder c7bs c3pinfo .all false c5fc0 c5fc1) ∧
    (processPair c7bs c3pinfo .all false c5fc0 c5fc1 stats0).2.remarks =
      stats0.remarks ++ [pairOutcome c7bs c3pinfo .all false c5fc0 c5fc1] ∧
    stats0.counts StatName.nonEqualTripCount <
      (processPair c7bs c3pinfo .all false c5fc0 c5fc1 stats0).2.counts
        StatName.nonEqualTripCount ∧
    (processPairList c7bs c3pinfo .all false [(c5fc0, c5fc1)]
        stats0).remarks =
      stats0.remarks ++
        [pairOutcome c7bs c3pinfo .all false c5fc0 c5fc1] := by
  obtain ⟨ha1, ha2, ha3, _⟩ :=
    C7_pipeline.1 c7bs c3pinfo .all false c5fc0 c5fc1 stats0
  refine ⟨ha1, ha2, ha3 _ ?_, ?_⟩
  · decide
  · have hb := C7_pipeline.2 c7bs c3pinfo .all false [(c5fc0, c5fc1)] stats0
    simpa using hb

end LoopVerif
